import Mathlib

deriving instance DecidableEq for Except

/-!
Verification of the task model and shell-command renderer of `src/tasks/task.ts`.

The TypeScript class `Task` keeps an ordered list of steps, a map of
environment variables, an optional skip condition, and renders itself (plus
any subtasks resolved through a registry) into one shell command string.
We embed that code shallowly: JavaScript objects used as string maps become
insertion-ordered association lists, the mutable step array becomes a pure
list carried in a `Task` record, the recursive renderer becomes a
fuel-indexed function returning `Except`, with a dedicated `outOfFuel`
error standing for non-termination of the unbounded recursion in the
source.  JavaScript truthiness of the optional string fields (`step.name`,
`step.exec`, `step.execTask`, `this.condition`, `command`) is modelled by
`truthy`: present and non-empty.
-/

namespace Projen

/-- The `TaskCategory` enumeration of `task.ts` (the string values of the
enum members play no role in rendering). -/
inductive TaskCategory where
  | build
  | test
  | release
  | maintain
  | misc

deriving DecidableEq

/-- Modelled from the spec: `model.ts` is not in the sources; the spec says
steps carry two common optional fields, a `name` label echoed before
execution and a step-local environment override map. -/
structure TaskStepOptions where
  name : Option String
  env : List (String × String)

deriving DecidableEq

/-- Modelled from the spec: `model.ts` is not in the sources; a step is a
tagged union of an inline command (`exec`) and a subtask reference by name
(`execTask`), with the common optional fields of `TaskStepOptions`.  The
renderer in `task.ts` probes the fields `name`, `exec` and `execTask` for
truthiness, so we keep all of them as optional fields of one record. -/
structure TaskStep where
  name : Option String
  exec : Option String
  execTask : Option String
  env : List (String × String)

deriving DecidableEq

/-- The data of the `Task` class: identity/metadata, the optional skip
condition, the private `_env` map and the private `_steps` array. -/
structure Task where
  name : String
  description : Option String
  category : Option TaskCategory
  condition : Option String
  _env : List (String × String)
  _steps : List TaskStep

deriving DecidableEq

/-- Modelled from the spec: the `TaskSpec` record serialized by
`_renderSpec` is `{ name, category, description, env, steps, condition }`. -/
structure TaskSpec where
  name : String
  category : Option TaskCategory
  description : Option String
  env : List (String × String)
  steps : List TaskStep
  condition : Option String

deriving DecidableEq

/-- Modelled from the spec: the external registry (`tasks.ts` is not in the
sources) stores tasks and supplies a read-only base environment; it must
provide `tryFind(name) -> Task | undefined` and `env`. -/
structure Tasks where
  env : List (String × String)
  all : List Task

deriving DecidableEq

/-- The registry lookup `tryFind` resolves a name to a stored task, or reports not-found as
`none` (it does not raise). -/
def Tasks.tryFind (reg : Tasks) (name : String) : Option Task :=
  reg.all.find? (fun t => t.name == name)

/-- JavaScript truthiness of an optional string field: present and
non-empty (both `undefined` and `""` are falsy). -/
def truthy (o : Option String) : Bool :=
  !(o.getD "").isEmpty

/-- Does the object (association list) have the key? -/
def keyMem (m : List (String × String)) (k : String) : Bool :=
  m.any (fun p => p.1 == k)

/-- The value stored under a key, if any (first occurrence). -/
def lookupVal (m : List (String × String)) (k : String) : Option String :=
  (m.find? (fun p => p.1 == k)).map (fun p => p.2)

/-- JavaScript property assignment `obj[k] = v` on an insertion-ordered
object: an existing key keeps its position and gets the new value, a new
key is appended. -/
def jsInsert (m : List (String × String)) (k v : String) : List (String × String) :=
  if keyMem m k then m.map (fun p => if p.1 == k then (k, v) else p)
  else m ++ [(k, v)]

/-- The object spread `{ ...a, ...b }`: copy `a`, then assign every entry
of `b` in order. -/
def jsSpread (a b : List (String × String)) : List (String × String) :=
  b.foldl (fun m p => jsInsert m p.1 p.2) a

/-- Source `exec(command, options)`: pushes `{ exec: command, ...options }`. -/
def Task.exec (t : Task) (command : String) (options : TaskStepOptions) : Task :=
  { t with _steps := t._steps ++
      [{ name := options.name, exec := some command, execTask := none, env := options.env }] }

/-- Source `prepend(shell, options)`: unshifts `{ exec: shell, ...options }`. -/
def Task.prepend (t : Task) (shell : String) (options : TaskStepOptions) : Task :=
  { t with _steps :=
      { name := options.name, exec := some shell, execTask := none, env := options.env } :: t._steps }

/-- Source `execTask(subtask, options)`: pushes `{ execTask: subtask.name, ...options }`. -/
def Task.execTask (t : Task) (subtask : Task) (options : TaskStepOptions) : Task :=
  { t with _steps := t._steps ++
      [{ name := options.name, exec := none, execTask := some subtask.name, env := options.env }] }

/-- Source `reset(command?)`: drains `_steps`; then, if `command` is truthy,
re-seeds via `this.exec(command)` (with default options). -/
def Task.reset (t : Task) (command : Option String) : Task :=
  let cleared : Task := { t with _steps := [] }
  if truthy command then
    Task.exec cleared (command.getD "") { name := none, env := [] }
  else cleared

/-- Source `env(name, value)`: `this._env[name] = value`. -/
def Task.env (t : Task) (name value : String) : Task :=
  { t with _env := jsInsert t._env name value }

/-- The `steps` getter, `[...this._steps]`, in the pure model: the copy of
an immutable list is the list itself (the aliasing content of the getter is
treated separately in the array-store model below). -/
def Task.steps (t : Task) : List TaskStep :=
  t._steps

/-- Source `_renderSpec()`: the serializable record handed to the manifest writer. -/
def Task.renderSpec (t : Task) : TaskSpec :=
  { name := t.name
    category := t.category
    description := t.description
    env := t._env
    steps := t._steps
    condition := t.condition }

/-- Errors of the renderer.  `unresolvedSubtask` embeds the
`throw new Error(...)` naming the missing task; `outOfFuel` is the fuel
artifact representing a non-terminating recursion of the source. -/
inductive RenderError where
  | unresolvedSubtask (name : String)
  | outOfFuel

deriving DecidableEq

/-- Source `cmd.map(c => ( c ))`: wrap one fragment in a shell group. -/
def groupFrag (c : String) : String :=
  "( " ++ c ++ " )"

/-- Source `cmd.map(c => ( c )).join(' && ')`. -/
def joinAnd (cmd : List String) : String :=
  String.intercalate " && " (cmd.map groupFrag)

/-- One environment assignment line `k="v"; `. -/
def assignLine (p : String × String) : String :=
  p.1 ++ "=\"" ++ p.2 ++ "\"; "

/-- The joined environment assignment prefix of a render: one line per
entry of `{ ...this.tasks.env, ...this._env }` in object order. -/
def envLines (reg : Tasks) (t : Task) : String :=
  String.join ((jsSpread reg.env t._env).map assignLine)

/-- The condition gate: a truthy condition wraps the joined sequence as
`! ( condition ) || ( allCommands )`, otherwise the sequence is returned
unchanged. -/
def withConditionStr (cond : Option String) (allCommands : String) : String :=
  if truthy cond then "! ( " ++ cond.getD "" ++ " ) || ( " ++ allCommands ++ " )"
  else allCommands

/-- The final template `( LINES WITHCONDITION )`. -/
def wrapRender (lines withCondition : String) : String :=
  "( " ++ lines ++ " " ++ withCondition ++ " )"

/-- The fragments one step contributes to `cmd`, given a renderer for
subtasks: an `echo` for a truthy `name`, the inline text for a truthy
`exec`, and for a truthy `execTask` either the unresolved-subtask error or
the grouped recursive render. -/
def stepFrags (reg : Tasks) (renderSub : Task → Except RenderError String)
    (step : TaskStep) : Except RenderError (List String) :=
  let nameFrags := if truthy step.name then ["echo " ++ step.name.getD ""] else []
  let execFrags := if truthy step.exec then [step.exec.getD ""] else []
  if truthy step.execTask then
    match reg.tryFind (step.execTask.getD "") with
    | none => .error (.unresolvedSubtask (step.execTask.getD ""))
    | some sub =>
      match renderSub sub with
      | .error e => .error e
      | .ok r => .ok (nameFrags ++ execFrags ++ ["( " ++ r ++ " )"])
  else .ok (nameFrags ++ execFrags)

/-- The `for (const step of this.steps)` loop accumulating `cmd`, with the
source's early exit on a thrown error. -/
def buildCmdWith (render1 : TaskStep → Except RenderError (List String)) :
    List TaskStep → Except RenderError (List String)
  | [] => .ok []
  | s :: rest =>
    match render1 s with
    | .error e => .error e
    | .ok frags =>
      match buildCmdWith render1 rest with
      | .error e => .error e
      | .ok more => .ok (frags ++ more)

/-- Source `toShellCommand()` with explicit fuel bounding the recursion depth and
an explicit registry (the source reads `this.tasks`).  With fuel `n + 1`
the body is exactly the source: build `cmd` from the steps, group and join
with `' && '`, gate on the condition, prefix the merged environment
assignments, and wrap in one group. -/
def toShellCommandFuel (reg : Tasks) : Nat → Task → Except RenderError String
  | 0, _ => .error .outOfFuel
  | fuel + 1, t =>
    match buildCmdWith (stepFrags reg (fun sub => toShellCommandFuel reg fuel sub)) (Task.steps t) with
    | .error e => .error e
    | .ok cmd => .ok (wrapRender (envLines reg t) (withConditionStr t.condition (joinAnd cmd)))

/-- The step loop at a given fuel. -/
def buildCmd (reg : Tasks) (fuel : Nat) : List TaskStep → Except RenderError (List String) :=
  buildCmdWith (stepFrags reg (fun sub => toShellCommandFuel reg fuel sub))

/-- A sample task used as concrete input in witnesses and counterexamples. -/
def sampleTask : Task :=
  { name := "build", description := none, category := none, condition := none,
    _env := [("FOO", "bar")],
    _steps := [{ name := none, exec := some "npm run compile", execTask := none, env := [] }] }

/-- A sample registry holding `sampleTask`. -/
def sampleReg : Tasks :=
  { env := [], all := [sampleTask] }

/-- A sample task with a condition, for the C1 witness. -/
def condTask : Task :=
  { sampleTask with condition := some "test -f package.json" }

/-- A task referencing a name absent from `sampleReg`, for the C4 witness. -/
def missingRefTask : Task :=
  { name := "broken", description := none, category := none, condition := none,
    _env := [],
    _steps := [{ name := none, exec := none, execTask := some "deploy", env := [] }] }

/-- A task whose second step invokes the registered `sampleTask`, for the
C5 witness. -/
def parentTask : Task :=
  { name := "release", description := none, category := none, condition := none,
    _env := [],
    _steps :=
      [{ name := none, exec := some "echo pre", execTask := none, env := [] },
       { name := none, exec := none, execTask := some "build", env := [] }] }

/-- Every step is a plain inline command: no label, no subtask reference,
and a truthy (non-empty) command. -/
abbrev PlainExecSteps (steps : List TaskStep) : Prop :=
  ∀ s ∈ steps, s.name = none ∧ s.execTask = none ∧ truthy s.exec = true

/-- A two-step plain task for the C6 witness. -/
def twoStepTask : Task :=
  { name := "check", description := none, category := none, condition := none,
    _env := [],
    _steps :=
      [{ name := none, exec := some "npm run lint", execTask := none, env := [] },
       { name := none, exec := some "npm run test", execTask := none, env := [] }] }

/-- A task with one labelled inline step, for the C6 counterexample. -/
def namedStepTask : Task :=
  { name := "n", description := none, category := none, condition := none,
    _env := [],
    _steps := [{ name := some "hello", exec := some "npm test", execTask := none, env := [] }] }

/-- Replace every step's step-local environment map using `f`. -/
def mapStepEnv (f : TaskStep → List (String × String)) (t : Task) : Task :=
  { t with _steps := t._steps.map (fun s => { s with env := f s }) }

/-- A task whose single step carries a step-level env override, and its
twin without the override, for the C3 counterexample. -/
def stepEnvTask : Task :=
  { name := "e", description := none, category := none, condition := none,
    _env := [],
    _steps := [{ name := none, exec := some "echo hi", execTask := none,
                 env := [("STEPVAR", "42")] }] }

/-- The same task with no step-level env. -/
def stepEnvTaskPlain : Task :=
  { stepEnvTask with
    _steps := [{ name := none, exec := some "echo hi", execTask := none, env := [] }] }

/-- An entry of `a` as it survives the spread `{ ...a, ...b }`: its key, with
`b`'s value if `b` also binds the key. -/
def overrideBy (b : List (String × String)) (p : String × String) : String × String :=
  match lookupVal b p.1 with
  | some v => (p.1, v)
  | none => p

/-- The keys of the object are pairwise distinct (every JavaScript object
satisfies this). -/
abbrev keysNodup (m : List (String × String)) : Prop :=
  (m.map Prod.fst).Nodup

/-- A registry with a base environment, for the C2 witness. -/
def envReg : Tasks :=
  { env := [("PATH", "/usr/bin"), ("FOO", "base"), ("CI", "1")], all := [] }

/-- A task overriding `FOO` and adding `EXTRA`, for the C2 witness. -/
def envTask : Task :=
  { name := "envy", description := none, category := none, condition := none,
    _env := [("FOO", "bar"), ("EXTRA", "x")],
    _steps := [{ name := none, exec := some "true", execTask := none, env := [] }] }

/-- A store of step arrays, modelling JavaScript array identity: a task's
private `_steps` field holds a reference (an index) into the store, and
mutating an array in place changes the store at that reference only. -/
structure StepsStore where
  arrays : List (List TaskStep)

deriving DecidableEq

/-- The contents of the array a reference designates. -/
def StepsStore.read (σ : StepsStore) (r : Nat) : List TaskStep :=
  (σ.arrays.get? r).getD []

/-- Allocate a fresh array with the given contents, returning the updated
store and the new reference. -/
def StepsStore.alloc (σ : StepsStore) (xs : List TaskStep) : StepsStore × Nat :=
  ({ arrays := σ.arrays ++ [xs] }, σ.arrays.length)

/-- Mutate the array behind a reference in place. -/
def StepsStore.write (σ : StepsStore) (r : Nat) (xs : List TaskStep) : StepsStore :=
  { arrays := σ.arrays.set r xs }

/-- The `steps` getter under the aliasing model: `return [...this._steps]`
allocates a fresh array holding a copy of the current contents of the
task's `_steps` array and hands the caller the fresh reference. -/
def stepsGetter (σ : StepsStore) (stepsRef : Nat) : StepsStore × Nat :=
  StepsStore.alloc σ (StepsStore.read σ stepsRef)

/-- A one-array store for the C9 witness. -/
def sampleStore : StepsStore :=
  { arrays := [sampleTask._steps] }

/-- Direct task reference: some step of `t` carries a truthy `execTask`
name that the registry resolves to `u`. -/
def RefStep (reg : Tasks) (t u : Task) : Prop :=
  ∃ s, s ∈ t._steps ∧ truthy s.execTask = true ∧ reg.tryFind (s.execTask.getD "") = some u

/-- A reference chain from a task: the list of successively referenced
tasks. -/
inductive ChainL (reg : Tasks) : Task → List Task → Prop where
  | nil (t : Task) : ChainL reg t []
  | cons {t u : Task} {l : List Task} :
      RefStep reg t u → ChainL reg u l → ChainL reg t (u :: l)

/-- No task directly or transitively references itself. -/
def Acyclic (reg : Tasks) : Prop :=
  ∀ u : Task, ¬ Relation.TransGen (RefStep reg) u u

/-- Every truthy subtask reference of the task resolves in the registry. -/
abbrev AllRefsResolve (reg : Tasks) (t : Task) : Prop :=
  ∀ s ∈ t._steps, truthy s.execTask = true → (reg.tryFind (s.execTask.getD "")).isSome = true

/-- Every task stored in the registry has only resolving references. -/
abbrev GoodReg (reg : Tasks) : Prop :=
  ∀ u ∈ reg.all, AllRefsResolve reg u

/-- A task whose single step references itself, registered under its own
name, for the C7 witness. -/
def loopTask : Task :=
  { name := "loop", description := none, category := none, condition := none,
    _env := [],
    _steps := [{ name := none, exec := none, execTask := some "loop", env := [] }] }

/-- The registry holding `loopTask`. -/
def loopReg : Tasks :=
  { env := [], all := [loopTask] }

/-- A self-referencing task whose first step is an unresolvable reference,
for the C7 counterexample. -/
def brokenLoopTask : Task :=
  { name := "A", description := none, category := none, condition := none,
    _env := [],
    _steps :=
      [{ name := none, exec := none, execTask := some "nope", env := [] },
       { name := none, exec := none, execTask := some "A", env := [] }] }

/-- The registry holding `brokenLoopTask`. -/
def brokenLoopReg : Tasks :=
  { env := [], all := [brokenLoopTask] }

lemma truthy_none : truthy none = false := rfl

lemma truthy_some {c : String} (h : c ≠ "") : truthy (some c) = true := by
  unfold truthy
  simp only [Option.getD_some]
  cases hc : c.isEmpty
  · rfl
  · exact absurd ((String.isEmpty_iff c).mp hc) h

lemma toShellCommandFuel_succ (reg : Tasks) (fuel : Nat) (t : Task) :
    toShellCommandFuel reg (fuel + 1) t =
      match buildCmd reg fuel t._steps with
      | .error e => .error e
      | .ok cmd =>
        .ok (wrapRender (envLines reg t) (withConditionStr t.condition (joinAnd cmd))) := rfl

lemma toShellCommandFuel_succ_ok {reg : Tasks} {fuel : Nat} {t : Task} {cmd : List String}
    (h : buildCmd reg fuel t._steps = .ok cmd) :
    toShellCommandFuel reg (fuel + 1) t =
      .ok (wrapRender (envLines reg t) (withConditionStr t.condition (joinAnd cmd))) := by
  rw [toShellCommandFuel_succ, h]

lemma toShellCommandFuel_succ_error {reg : Tasks} {fuel : Nat} {t : Task} {e : RenderError}
    (h : buildCmd reg fuel t._steps = .error e) :
    toShellCommandFuel reg (fuel + 1) t = .error e := by
  rw [toShellCommandFuel_succ, h]

lemma buildCmdWith_cons (f : TaskStep → Except RenderError (List String))
    (s : TaskStep) (rest : List TaskStep) :
    buildCmdWith f (s :: rest) =
      match f s with
      | .error e => .error e
      | .ok frags =>
        match buildCmdWith f rest with
        | .error e => .error e
        | .ok more => .ok (frags ++ more) := rfl

lemma buildCmdWith_append (f : TaskStep → Except RenderError (List String))
    (l₁ l₂ : List TaskStep) :
    buildCmdWith f (l₁ ++ l₂) =
      match buildCmdWith f l₁ with
      | .error e => .error e
      | .ok a =>
        match buildCmdWith f l₂ with
        | .error e => .error e
        | .ok b => .ok (a ++ b) := by
  induction l₁ with
  | nil =>
    cases h₂ : buildCmdWith f l₂ <;> simp [buildCmdWith, h₂]
  | cons s rest ih =>
    simp only [List.cons_append, buildCmdWith_cons, ih]
    cases f s with
    | error e => rfl
    | ok frags =>
      cases buildCmdWith f rest with
      | error e => rfl
      | ok a =>
        cases buildCmdWith f l₂ with
        | error e => rfl
        | ok b => simp

/-- A step whose only content is an empty inline command contributes no
fragment: every field of it is falsy to the renderer. -/
lemma stepFrags_empty_exec (reg : Tasks) (renderSub : Task → Except RenderError String) :
    stepFrags reg renderSub { name := none, exec := some "", execTask := none, env := [] } =
      .ok [] := rfl

/-- Two tasks with the same `_env` and `condition` whose step lists build
the same `cmd` render identically. -/
lemma render_eq_of_buildCmd_eq {reg : Tasks} {fuel : Nat} {t t' : Task}
    (h_env : t'._env = t._env) (h_cond : t'.condition = t.condition)
    (h : buildCmd reg fuel t'._steps = buildCmd reg fuel t._steps) :
    toShellCommandFuel reg (fuel + 1) t' = toShellCommandFuel reg (fuel + 1) t := by
  have he : envLines reg t' = envLines reg t := by
    unfold envLines
    rw [h_env]
  rw [toShellCommandFuel_succ reg fuel t', toShellCommandFuel_succ reg fuel t, h]
  cases buildCmd reg fuel t._steps with
  | error e => rfl
  | ok cmd => rw [he, h_cond]

/-- C10: appending (via `exec`) or prepending (via `prepend`) a step whose
inline command is the empty string adds a step to the list — visible in the
`steps` accessor and in the `_renderSpec` step count — but the renderer
emits no fragment for it, so the rendered command is unchanged. -/
theorem C10_empty_command_step (reg : Tasks) (fuel : Nat) (t : Task) :
    (Task.exec t "" { name := none, env := [] }).steps =
        t.steps ++ [{ name := none, exec := some "", execTask := none, env := [] }]
  ∧ (Task.prepend t "" { name := none, env := [] }).steps =
        { name := none, exec := some "", execTask := none, env := [] } :: t.steps
  ∧ toShellCommandFuel reg fuel (Task.exec t "" { name := none, env := [] }) =
        toShellCommandFuel reg fuel t
  ∧ toShellCommandFuel reg fuel (Task.prepend t "" { name := none, env := [] }) =
        toShellCommandFuel reg fuel t
  ∧ (Task.exec t "" { name := none, env := [] }).renderSpec.steps.length =
        t.renderSpec.steps.length + 1
  ∧ (Task.prepend t "" { name := none, env := [] }).renderSpec.steps.length =
        t.renderSpec.steps.length + 1 := by
  refine ⟨rfl, rfl, ?_, ?_, by simp [Task.renderSpec, Task.exec], by simp [Task.renderSpec, Task.prepend]⟩
  · cases fuel with
    | zero => rfl
    | succ n =>
      refine render_eq_of_buildCmd_eq rfl rfl ?_
      show buildCmd reg n (t._steps ++ [{ name := none, exec := some "", execTask := none, env := [] }]) = _
      rw [buildCmd, buildCmdWith_append]
      cases buildCmdWith (stepFrags reg (fun sub => toShellCommandFuel reg n sub)) t._steps with
      | error e => rfl
      | ok a => simp [buildCmdWith, stepFrags_empty_exec]
  · cases fuel with
    | zero => rfl
    | succ n =>
      refine render_eq_of_buildCmd_eq rfl rfl ?_
      show buildCmd reg n ({ name := none, exec := some "", execTask := none, env := [] } :: t._steps) = _
      rw [buildCmd, buildCmdWith_cons, stepFrags_empty_exec]
      cases buildCmdWith (stepFrags reg (fun sub => toShellCommandFuel reg n sub)) t._steps with
      | error e => rfl
      | ok a => simp

/-- C8 (amended): `reset(cmd)` with a non-empty `cmd` leaves exactly one
step, an `Exec` of `cmd`; `reset()` with no argument leaves no steps.  (The
original claim quantified over every command string; the empty string is
falsy and is not re-seeded.) -/
theorem C8_reset_behavior (t : Task) (cmd : String) (h : cmd ≠ "") :
    (Task.reset t (some cmd)).steps =
        [{ name := none, exec := some cmd, execTask := none, env := [] }]
  ∧ (Task.reset t none).steps = [] := by
  constructor
  · simp [Task.reset, truthy_some h, Task.exec, Task.steps]
  · rfl

theorem C8_reset_behavior_witness :
    ("npx projen build" : String) ≠ "" ∧
    ((Task.reset sampleTask (some "npx projen build")).steps =
        [{ name := none, exec := some "npx projen build", execTask := none, env := [] }]
    ∧ (Task.reset sampleTask none).steps = []) :=
  ⟨by decide, C8_reset_behavior sampleTask "npx projen build" (by decide)⟩

/-- C8 counterexample: calling `reset` with the empty string as the command
leaves the task with an empty step list — the empty command is falsy, so no
`Exec` step is re-seeded, contradicting the claim for `cmd = ""`. -/
theorem C8_reset_empty_cex :
    (Task.reset sampleTask (some "")).steps = []
  ∧ (Task.reset sampleTask (some "")).steps ≠
      [{ name := none, exec := some "", execTask := none, env := [] }] :=
  ⟨rfl, by decide⟩

/-- C1: a truthy (present, non-empty) condition wraps the whole joined
sequence in one up-front `! ( condition ) || ( sequence )` gate — the
logical OR of the negated condition and the sequence — with the condition
interpolated exactly once at the gate, while the same task without a
condition renders the identical sequence ungated. -/
theorem C1_condition_gate (reg : Tasks) (fuel : Nat) (t : Task) (c : String)
    (l : List String) (hc : t.condition = some c) (hne : c ≠ "")
    (hb : buildCmd reg fuel t._steps = .ok l) :
    toShellCommandFuel reg (fuel + 1) t =
      .ok (wrapRender (envLines reg t) ("! ( " ++ c ++ " ) || ( " ++ joinAnd l ++ " )"))
  ∧ toShellCommandFuel reg (fuel + 1) { t with condition := none } =
      .ok (wrapRender (envLines reg t) (joinAnd l)) := by
  constructor
  · rw [toShellCommandFuel_succ_ok hb, hc]
    simp [withConditionStr, truthy_some hne]
  · have hb' : buildCmd reg fuel ({ t with condition := none } : Task)._steps = .ok l := hb
    rw [toShellCommandFuel_succ_ok hb']
    rfl

theorem C1_condition_gate_witness :
    condTask.condition = some "test -f package.json"
  ∧ ("test -f package.json" : String) ≠ ""
  ∧ buildCmd sampleReg 0 condTask._steps = .ok ["npm run compile"]
  ∧ (toShellCommandFuel sampleReg 1 condTask =
      .ok (wrapRender (envLines sampleReg condTask)
        ("! ( " ++ "test -f package.json" ++ " ) || ( " ++ joinAnd ["npm run compile"] ++ " )"))
    ∧ toShellCommandFuel sampleReg 1 { condTask with condition := none } =
      .ok (wrapRender (envLines sampleReg condTask) (joinAnd ["npm run compile"]))) :=
  ⟨rfl, by decide, rfl,
    C1_condition_gate sampleReg 0 condTask "test -f package.json" ["npm run compile"]
      rfl (by decide) rfl⟩

/-- C4: when a step carries a truthy `execTask` name that the registry's
`tryFind` does not resolve (and the steps before it built their fragments
without error), the render raises the `unresolvedSubtask` error carrying
that name — the failure comes from the renderer, `tryFind` itself returns
`none` — and no (partial) string is returned. -/
theorem C4_unresolved_subtask (reg : Tasks) (fuel : Nat) (t : Task)
    (pre post : List TaskStep) (s : TaskStep) (l : List String)
    (hsteps : t._steps = pre ++ s :: post)
    (hname : truthy s.execTask = true)
    (hfind : reg.tryFind (s.execTask.getD "") = none)
    (hpre : buildCmd reg fuel pre = .ok l) :
    toShellCommandFuel reg (fuel + 1) t =
      .error (.unresolvedSubtask (s.execTask.getD "")) := by
  have hpre' : buildCmdWith (stepFrags reg (fun sub => toShellCommandFuel reg fuel sub)) pre =
      .ok l := hpre
  have hs : stepFrags reg (fun sub => toShellCommandFuel reg fuel sub) s =
      .error (.unresolvedSubtask (s.execTask.getD "")) := by
    simp [stepFrags, hname, hfind]
  apply toShellCommandFuel_succ_error
  rw [hsteps]
  show buildCmdWith _ (pre ++ s :: post) = _
  rw [buildCmdWith_append, hpre', buildCmdWith_cons, hs]

theorem C4_unresolved_subtask_witness :
    missingRefTask._steps =
        [] ++ { name := none, exec := none, execTask := some "deploy", env := [] } :: []
  ∧ truthy (some "deploy") = true
  ∧ sampleReg.tryFind ((some "deploy").getD "") = none
  ∧ buildCmd sampleReg 0 [] = .ok []
  ∧ toShellCommandFuel sampleReg 1 missingRefTask =
      .error (.unresolvedSubtask ((some "deploy").getD "")) :=
  ⟨rfl, by decide, by decide, rfl,
    C4_unresolved_subtask sampleReg 0 missingRefTask [] []
      { name := none, exec := none, execTask := some "deploy", env := [] } []
      rfl (by decide) (by decide) rfl⟩

/-- C5: when a step references a task `B` that `tryFind` resolves and `B`
renders to `sB`, the containing task's render carries `B`'s full render as
the single grouped fragment `( sB )` at that step's position in the
AND-chain, between the fragments of the earlier and later steps. -/
theorem C5_subtask_nesting (reg : Tasks) (fuel : Nat) (t B : Task) (nmB : String)
    (es : List (String × String)) (pre post : List TaskStep)
    (l₁ l₂ : List String) (sB : String)
    (hsteps : t._steps =
      pre ++ { name := none, exec := none, execTask := some nmB, env := es } :: post)
    (hne : nmB ≠ "")
    (hfind : reg.tryFind nmB = some B)
    (hB : toShellCommandFuel reg fuel B = .ok sB)
    (h1 : buildCmd reg fuel pre = .ok l₁)
    (h2 : buildCmd reg fuel post = .ok l₂) :
    toShellCommandFuel reg (fuel + 1) t =
      .ok (wrapRender (envLines reg t)
        (withConditionStr t.condition (joinAnd (l₁ ++ ["( " ++ sB ++ " )"] ++ l₂)))) := by
  have h1' : buildCmdWith (stepFrags reg (fun sub => toShellCommandFuel reg fuel sub)) pre =
      .ok l₁ := h1
  have h2' : buildCmdWith (stepFrags reg (fun sub => toShellCommandFuel reg fuel sub)) post =
      .ok l₂ := h2
  have hs : stepFrags reg (fun sub => toShellCommandFuel reg fuel sub)
      { name := none, exec := none, execTask := some nmB, env := es } =
      .ok ["( " ++ sB ++ " )"] := by
    simp [stepFrags, truthy_some hne, hfind, hB, truthy_none]
  have hb : buildCmd reg fuel t._steps = .ok (l₁ ++ ["( " ++ sB ++ " )"] ++ l₂) := by
    rw [hsteps]
    show buildCmdWith _ (pre ++ _ :: post) = _
    rw [buildCmdWith_append, h1', buildCmdWith_cons, hs, h2']
    simp
  exact toShellCommandFuel_succ_ok hb

theorem C5_subtask_nesting_witness :
    parentTask._steps =
        [{ name := none, exec := some "echo pre", execTask := none, env := [] }] ++
          { name := none, exec := none, execTask := some "build", env := [] } :: []
  ∧ ("build" : String) ≠ ""
  ∧ sampleReg.tryFind "build" = some sampleTask
  ∧ toShellCommandFuel sampleReg 1 sampleTask = .ok "( FOO=\"bar\";  ( npm run compile ) )"
  ∧ buildCmd sampleReg 1
        [{ name := none, exec := some "echo pre", execTask := none, env := [] }] =
      .ok ["echo pre"]
  ∧ buildCmd sampleReg 1 [] = .ok []
  ∧ toShellCommandFuel sampleReg 2 parentTask =
      .ok (wrapRender (envLines sampleReg parentTask)
        (withConditionStr parentTask.condition
          (joinAnd (["echo pre"] ++
            ["( " ++ "( FOO=\"bar\";  ( npm run compile ) )" ++ " )"] ++ [])))) :=
  ⟨rfl, by decide, by decide, by decide, by decide, rfl,
    C5_subtask_nesting sampleReg 1 parentTask sampleTask "build" []
      [{ name := none, exec := some "echo pre", execTask := none, env := [] }] []
      ["echo pre"] [] "( FOO=\"bar\";  ( npm run compile ) )"
      rfl (by decide) (by decide) (by decide) (by decide) rfl⟩

lemma stepFrags_plain (reg : Tasks) (renderSub : Task → Except RenderError String)
    (s : TaskStep) (h1 : s.name = none) (h2 : s.execTask = none)
    (h3 : truthy s.exec = true) :
    stepFrags reg renderSub s = .ok [s.exec.getD ""] := by
  simp [stepFrags, h1, h2, h3, truthy_none]

lemma buildCmd_all_plain (reg : Tasks) (fuel : Nat) :
    ∀ steps : List TaskStep, PlainExecSteps steps →
      buildCmd reg fuel steps = .ok (steps.map (fun s => s.exec.getD "")) := by
  intro steps h
  induction steps with
  | nil => rfl
  | cons s rest ih =>
    have hs := h s (List.mem_cons_self s rest)
    have hrest : PlainExecSteps rest := fun x hx => h x (List.mem_cons_of_mem s hx)
    have ih' : buildCmdWith (stepFrags reg (fun sub => toShellCommandFuel reg fuel sub)) rest =
        .ok (rest.map (fun s => s.exec.getD "")) := ih hrest
    show buildCmdWith _ (s :: rest) = _
    rw [buildCmdWith_cons, stepFrags_plain reg _ s hs.1 hs.2.1 hs.2.2, ih']
    rfl

/-- C6 (amended): for a task with `N` plain inline steps — no step labels,
no subtask references, non-empty commands — and no condition, the render is
the `' && '`-join of exactly one grouped fragment per step, in the exact
order the steps occur.  (The original claim fails for a labelled `Exec`
step, which contributes an extra `echo` fragment to the chain.) -/
theorem C6_inline_and_chain (reg : Tasks) (fuel : Nat) (t : Task)
    (hcond : t.condition = none)
    (hplain : PlainExecSteps t._steps) :
    toShellCommandFuel reg (fuel + 1) t =
      .ok (wrapRender (envLines reg t)
        (String.intercalate " && " (t._steps.map (fun s => groupFrag (s.exec.getD ""))))) := by
  rw [toShellCommandFuel_succ_ok (buildCmd_all_plain reg fuel t._steps hplain), hcond]
  simp [withConditionStr, truthy_none, joinAnd, List.map_map]
  rfl

theorem C6_inline_and_chain_witness :
    twoStepTask.condition = none
  ∧ PlainExecSteps twoStepTask._steps
  ∧ toShellCommandFuel sampleReg 1 twoStepTask =
      .ok (wrapRender (envLines sampleReg twoStepTask)
        (String.intercalate " && "
          (twoStepTask._steps.map (fun s => groupFrag (s.exec.getD ""))))) :=
  ⟨rfl, by decide, C6_inline_and_chain sampleReg 0 twoStepTask rfl (by decide)⟩

/-- C6 counterexample: a task with a single `Exec` step that carries a step
`name` renders two grouped fragments (`echo hello` and the command) joined
by `' && '`, not exactly one fragment for its one step. -/
theorem C6_named_step_cex :
    namedStepTask._steps.length = 1
  ∧ namedStepTask.condition = none
  ∧ toShellCommandFuel sampleReg 1 namedStepTask =
      .ok "(  ( echo hello ) && ( npm test ) )"
  ∧ "(  ( echo hello ) && ( npm test ) )" ≠
      wrapRender (envLines sampleReg namedStepTask) (joinAnd ["npm test"]) :=
  ⟨rfl, rfl, by decide, by decide⟩

lemma stepFrags_env_irrelevant (reg : Tasks) (renderSub : Task → Except RenderError String)
    (s : TaskStep) (e : List (String × String)) :
    stepFrags reg renderSub { s with env := e } = stepFrags reg renderSub s := rfl

lemma buildCmdWith_env_irrelevant (g : TaskStep → Except RenderError (List String))
    (f : TaskStep → List (String × String))
    (hg : ∀ s, g { s with env := f s } = g s) :
    ∀ l : List TaskStep, buildCmdWith g (l.map (fun s => { s with env := f s })) =
      buildCmdWith g l := by
  intro l
  induction l with
  | nil => rfl
  | cons s rest ih =>
    rw [List.map_cons, buildCmdWith_cons, hg s, ih, buildCmdWith_cons]

/-- C3 (amended): the renderer never consults a step's own environment
override — the render of a task is invariant under arbitrary replacement of
every step-level `env` map, so the only environment layering in the output
is registry base env overridden by task-level env.  (The original claim,
that a step's env applies to its fragment with the highest precedence,
fails: the step map is stored and serialized but ignored by
`toShellCommand`.) -/
theorem C3_step_env_ignored (reg : Tasks) (fuel : Nat) (t : Task)
    (f : TaskStep → List (String × String)) :
    toShellCommandFuel reg fuel (mapStepEnv f t) = toShellCommandFuel reg fuel t := by
  cases fuel with
  | zero => rfl
  | succ n =>
    refine render_eq_of_buildCmd_eq rfl rfl ?_
    exact buildCmdWith_env_irrelevant (stepFrags reg (fun sub => toShellCommandFuel reg n sub)) f
      (fun s => stepFrags_env_irrelevant reg _ s (f s)) t._steps

/-- C3 counterexample: the step's env override `STEPVAR=42` leaves no trace
in the render — the output equals both the literal string `(  ( echo hi ) )`
(which contains no assignment at all) and the render of the twin task with
no step-level env, so no step-scoped application happens. -/
theorem C3_step_env_cex :
    stepEnvTask._steps.map TaskStep.env = [[("STEPVAR", "42")]]
  ∧ toShellCommandFuel sampleReg 1 stepEnvTask = .ok "(  ( echo hi ) )"
  ∧ toShellCommandFuel sampleReg 1 stepEnvTask = toShellCommandFuel sampleReg 1 stepEnvTaskPlain :=
  ⟨rfl, by decide, by decide⟩

lemma keyMem_iff {m : List (String × String)} {k : String} :
    keyMem m k = true ↔ k ∈ m.map Prod.fst := by
  simp [keyMem, List.any_eq_true, List.mem_map, beq_iff_eq]

lemma keyMem_eq_keys_any : ∀ (m : List (String × String)) (k : String),
    keyMem m k = (m.map Prod.fst).any (fun s => s == k) := by
  intro m k
  induction m with
  | nil => rfl
  | cons p rest ih =>
    simp only [keyMem, List.any_cons, List.map_cons] at ih ⊢
    rw [ih]

lemma lookupVal_eq_none {m : List (String × String)} {k : String}
    (h : k ∉ m.map Prod.fst) : lookupVal m k = none := by
  unfold lookupVal
  rw [show List.find? (fun p => p.1 == k) m = none from ?_]
  · rfl
  · rw [List.find?_eq_none]
    intro p hp hpk
    exact h (List.mem_map.mpr ⟨p, hp, eq_of_beq hpk⟩)

lemma lookupVal_cons_self {b : List (String × String)} {k v : String} :
    lookupVal ((k, v) :: b) k = some v := by
  simp [lookupVal, List.find?]

lemma lookupVal_cons_ne {b : List (String × String)} {k v j : String} (h : j ≠ k) :
    lookupVal ((k, v) :: b) j = lookupVal b j := by
  simp only [lookupVal, List.find?]
  rw [show ((k, v).1 == j) = false from beq_eq_false_iff_ne.mpr (Ne.symm h)]

lemma keys_jsInsert_mem {a : List (String × String)} {k v : String}
    (h : keyMem a k = true) :
    (jsInsert a k v).map Prod.fst = a.map Prod.fst := by
  unfold jsInsert
  rw [h]
  simp only [if_true, List.map_map]
  refine List.map_congr_left ?_
  intro p _
  simp only [Function.comp_apply]
  cases hpk : p.1 == k
  · simp
  · simp [eq_of_beq hpk]

lemma keysNodup_jsInsert {a : List (String × String)} (k v : String)
    (ha : keysNodup a) : keysNodup (jsInsert a k v) := by
  cases h : keyMem a k
  · unfold jsInsert
    rw [h]
    simp only [Bool.false_eq_true, if_false, keysNodup, List.map_append]
    rw [List.nodup_append]
    refine ⟨ha, List.nodup_singleton k, ?_⟩
    intro x hx hk
    simp only [List.map_cons, List.map_nil, List.mem_singleton] at hk
    subst hk
    exact absurd (keyMem_iff.mpr hx) (by simp [h])
  · unfold keysNodup
    rw [keys_jsInsert_mem h]
    exact ha

/-- The characterization of the object spread `{ ...a, ...b }` for
objects with distinct keys: `a`'s entries in order, each overridden by
`b`'s value when the key collides, followed by `b`'s entries whose keys are
new, in order. -/
lemma jsSpread_char : ∀ (b a : List (String × String)), keysNodup a → keysNodup b →
    jsSpread a b = a.map (overrideBy b) ++ b.filter (fun p => !(keyMem a p.1)) := by
  intro b
  induction b with
  | nil =>
    intro a _ _
    simp only [jsSpread, List.foldl_nil, List.filter_nil, List.append_nil]
    rw [show List.map (overrideBy []) a = List.map id a from
      List.map_congr_left (fun p _ => rfl)]
    simp
  | cons hd tl ih =>
    intro a ha hb
    obtain ⟨k, v⟩ := hd
    have hknotin : k ∉ tl.map Prod.fst := by
      intro hmem
      exact absurd hb (by simp [keysNodup, List.nodup_cons, hmem])
    have htl : keysNodup tl := by
      simpa [keysNodup, List.nodup_cons] using hb.of_cons
    have hstep : jsSpread a ((k, v) :: tl) = jsSpread (jsInsert a k v) tl := rfl
    rw [hstep, ih (jsInsert a k v) (keysNodup_jsInsert k v ha) htl]
    cases hmem : keyMem a k
    · -- new key: jsInsert appends (k, v)
      have hins : jsInsert a k v = a ++ [(k, v)] := by
        unfold jsInsert
        rw [hmem]
        simp
      rw [hins]
      have hmap : (a ++ [(k, v)]).map (overrideBy tl) =
          a.map (overrideBy ((k, v) :: tl)) ++ [(k, v)] := by
        rw [List.map_append]
        congr 1
        · refine List.map_congr_left ?_
          intro p hp
          have hpk : p.1 ≠ k := by
            intro he
            exact absurd (keyMem_iff.mpr (List.mem_map.mpr ⟨p, hp, he⟩)) (by simp [hmem])
          unfold overrideBy
          rw [lookupVal_cons_ne hpk]
        · simp only [List.map_cons, List.map_nil]
          unfold overrideBy
          rw [lookupVal_eq_none hknotin]
      have hfil : tl.filter (fun p => !(keyMem (a ++ [(k, v)]) p.1)) =
          tl.filter (fun p => !(keyMem a p.1)) := by
        refine List.filter_congr ?_
        intro p hp
        have hpk : p.1 ≠ k := by
          intro he
          exact hknotin (List.mem_map.mpr ⟨p, hp, he⟩)
        simp only [keyMem, List.any_append, List.any_cons, List.any_nil]
        rw [show ((k, v).1 == p.1) = false from beq_eq_false_iff_ne.mpr (Ne.symm hpk)]
        simp
      have hfil2 : ((k, v) :: tl).filter (fun p => !(keyMem a p.1)) =
          (k, v) :: tl.filter (fun p => !(keyMem a p.1)) := by
        simp [List.filter_cons, hmem]
      rw [hmap, hfil, hfil2]
      simp
    · -- colliding key: jsInsert rewrites in place
      have hins : jsInsert a k v =
          a.map (fun p => if p.1 == k then (k, v) else p) := by
        unfold jsInsert
        rw [hmem]
        simp
      rw [hins]
      have hmap : (a.map (fun p => if p.1 == k then (k, v) else p)).map (overrideBy tl) =
          a.map (overrideBy ((k, v) :: tl)) := by
        rw [List.map_map]
        refine List.map_congr_left ?_
        intro p _
        simp only [Function.comp_apply]
        cases hpk : p.1 == k
        · have hpk' : p.1 ≠ k := by
            intro he
            simp [he] at hpk
          simp only [Bool.false_eq_true, if_false]
          unfold overrideBy
          rw [lookupVal_cons_ne hpk']
        · have hpk' : p.1 = k := eq_of_beq hpk
          simp only [if_true]
          unfold overrideBy
          subst hpk'
          rw [lookupVal_cons_self, lookupVal_eq_none hknotin]
      have hkeys : (a.map (fun p => if p.1 == k then (k, v) else p)).map Prod.fst =
          a.map Prod.fst := by
        have := keys_jsInsert_mem (a := a) (k := k) (v := v) hmem
        unfold jsInsert at this
        rw [hmem] at this
        simpa using this
      have hfil : tl.filter
            (fun p => !(keyMem (a.map (fun q => if q.1 == k then (k, v) else q)) p.1)) =
          tl.filter (fun p => !(keyMem a p.1)) := by
        refine List.filter_congr ?_
        intro p _
        rw [keyMem_eq_keys_any, hkeys, ← keyMem_eq_keys_any]
      have hfil2 : ((k, v) :: tl).filter (fun p => !(keyMem a p.1)) =
          tl.filter (fun p => !(keyMem a p.1)) := by
        simp [List.filter_cons, hmem]
      rw [hmap, hfil, hfil2]

/-- C2: the environment assignments emitted ahead of the gated sequence are
exactly: every registry base entry, in registry insertion order, with the
task-level value replacing the registry value on key collisions, followed by
the task-level entries whose keys are new, in task insertion order — so the
task wins every collision, no registry entry not overridden is lost, and the
order is the insertion order of the merged map with registry entries first. -/
theorem C2_env_merge (reg : Tasks) (fuel : Nat) (t : Task) (l : List String)
    (ha : keysNodup reg.env) (hb : keysNodup t._env)
    (hbuild : buildCmd reg fuel t._steps = .ok l) :
    toShellCommandFuel reg (fuel + 1) t =
      .ok (wrapRender
        (String.join ((reg.env.map (overrideBy t._env) ++
          t._env.filter (fun p => !(keyMem reg.env p.1))).map assignLine))
        (withConditionStr t.condition (joinAnd l))) := by
  have he : envLines reg t =
      String.join ((reg.env.map (overrideBy t._env) ++
        t._env.filter (fun p => !(keyMem reg.env p.1))).map assignLine) := by
    unfold envLines
    rw [jsSpread_char t._env reg.env ha hb]
  rw [toShellCommandFuel_succ_ok hbuild, he]

theorem C2_env_merge_witness :
    keysNodup envReg.env
  ∧ keysNodup envTask._env
  ∧ buildCmd envReg 0 envTask._steps = .ok ["true"]
  ∧ toShellCommandFuel envReg 1 envTask =
      .ok (wrapRender
        (String.join ((envReg.env.map (overrideBy envTask._env) ++
          envTask._env.filter (fun p => !(keyMem envReg.env p.1))).map assignLine))
        (withConditionStr envTask.condition (joinAnd ["true"]))) :=
  ⟨by decide, by decide, rfl,
    C2_env_merge envReg 0 envTask ["true"] (by decide) (by decide) rfl⟩

lemma get?_append_lt {α : Type} : ∀ (l₁ l₂ : List α) (i : Nat), i < l₁.length →
    (l₁ ++ l₂).get? i = l₁.get? i := by
  intro l₁
  induction l₁ with
  | nil =>
    intro l₂ i h
    exact absurd h (Nat.not_lt_zero i)
  | cons x rest ih =>
    intro l₂ i h
    cases i with
    | zero => rfl
    | succ j => exact ih l₂ j (Nat.lt_of_succ_lt_succ h)

lemma get?_append_self {α : Type} : ∀ (l : List α) (x : α),
    (l ++ [x]).get? l.length = some x := by
  intro l x
  induction l with
  | nil => rfl
  | cons y rest ih => exact ih

lemma get?_set_ne {α : Type} : ∀ (l : List α) (i j : Nat) (x : α), i ≠ j →
    (l.set i x).get? j = l.get? j := by
  intro l
  induction l with
  | nil => intro i j x _; rfl
  | cons y rest ih =>
    intro i j x hne
    cases i with
    | zero =>
      cases j with
      | zero => exact absurd rfl hne
      | succ m => rfl
    | succ n =>
      cases j with
      | zero => rfl
      | succ m => exact ih n m x (fun he => hne (by rw [he]))

/-- C9: the `steps` accessor returns a defensive copy — under the array
store, the getter allocates a fresh reference distinct from the task's
internal `_steps` reference, the copy's contents equal the internal
contents at the time of the call, and any mutation performed through the
returned reference leaves the internal array (and hence any later
rendering, a function of its contents) unchanged. -/
theorem C9_steps_defensive_copy (σ : StepsStore) (stepsRef : Nat)
    (h : stepsRef < σ.arrays.length) :
    (stepsGetter σ stepsRef).2 ≠ stepsRef
  ∧ StepsStore.read (stepsGetter σ stepsRef).1 (stepsGetter σ stepsRef).2 =
      StepsStore.read σ stepsRef
  ∧ ∀ xs : List TaskStep,
      StepsStore.read
          (StepsStore.write (stepsGetter σ stepsRef).1 (stepsGetter σ stepsRef).2 xs)
          stepsRef =
        StepsStore.read σ stepsRef := by
  refine ⟨Nat.ne_of_gt h, ?_, ?_⟩
  · show ((σ.arrays ++ [StepsStore.read σ stepsRef]).get? σ.arrays.length).getD [] = _
    rw [get?_append_self]
    rfl
  · intro xs
    show (((σ.arrays ++ [StepsStore.read σ stepsRef]).set σ.arrays.length xs).get? stepsRef).getD [] = _
    rw [get?_set_ne _ _ _ _ (Nat.ne_of_gt h), get?_append_lt _ _ _ h]
    rfl

theorem C9_steps_defensive_copy_witness :
    (0 : Nat) < sampleStore.arrays.length
  ∧ ((stepsGetter sampleStore 0).2 ≠ 0
    ∧ StepsStore.read (stepsGetter sampleStore 0).1 (stepsGetter sampleStore 0).2 =
        StepsStore.read sampleStore 0
    ∧ ∀ xs : List TaskStep,
        StepsStore.read
            (StepsStore.write (stepsGetter sampleStore 0).1 (stepsGetter sampleStore 0).2 xs)
            0 =
          StepsStore.read sampleStore 0) :=
  ⟨by decide, C9_steps_defensive_copy sampleStore 0 (by decide)⟩

lemma stepFrags_oof {reg : Tasks} {fuel : Nat} {s : TaskStep}
    (h : stepFrags reg (fun sub => toShellCommandFuel reg fuel sub) s = .error .outOfFuel) :
    ∃ u, truthy s.execTask = true ∧ reg.tryFind (s.execTask.getD "") = some u ∧
      toShellCommandFuel reg fuel u = .error .outOfFuel := by
  unfold stepFrags at h
  cases htr : truthy s.execTask with
  | false =>
    rw [htr] at h
    exact absurd h (by simp)
  | true =>
    rw [htr] at h
    simp only [if_true] at h
    cases hf : reg.tryFind (s.execTask.getD "") with
    | none =>
      rw [hf] at h
      exact absurd h (by simp)
    | some sub =>
      rw [hf] at h
      simp only [] at h
      cases hr : toShellCommandFuel reg fuel sub with
      | error e =>
        rw [hr] at h
        simp only [Except.error.injEq] at h
        exact ⟨sub, rfl, rfl, by rw [hr, h]⟩
      | ok r =>
        rw [hr] at h
        exact absurd h (by simp)

lemma buildCmdWith_oof {f : TaskStep → Except RenderError (List String)} :
    ∀ {l : List TaskStep}, buildCmdWith f l = .error .outOfFuel →
      ∃ s ∈ l, f s = .error .outOfFuel := by
  intro l
  induction l with
  | nil => intro h; exact absurd h (by simp [buildCmdWith])
  | cons s rest ih =>
    intro h
    rw [buildCmdWith_cons] at h
    cases hs : f s with
    | error e =>
      rw [hs] at h
      simp only [Except.error.injEq] at h
      exact ⟨s, List.mem_cons_self s rest, by rw [hs, h]⟩
    | ok frags =>
      rw [hs] at h
      cases hr : buildCmdWith f rest with
      | error e =>
        rw [hr] at h
        simp only [Except.error.injEq] at h
        obtain ⟨s', hmem, hs'⟩ := ih (by rw [hr, h])
        exact ⟨s', List.mem_cons_of_mem s hmem, hs'⟩
      | ok more =>
        rw [hr] at h
        exact absurd h (by simp)

lemma render_succ_oof {reg : Tasks} {fuel : Nat} {t : Task}
    (h : toShellCommandFuel reg (fuel + 1) t = .error .outOfFuel) :
    buildCmd reg fuel t._steps = .error .outOfFuel := by
  rw [toShellCommandFuel_succ] at h
  cases hb : buildCmd reg fuel t._steps with
  | error e =>
    rw [hb] at h
    simp only [Except.error.injEq] at h
    rw [h]
  | ok cmd =>
    rw [hb] at h
    exact absurd h (by simp)

/-- When no reference chain of `fuel + 1` tasks starts at `t`, rendering
with fuel `fuel + 1` cannot run out of fuel. -/
lemma no_oof_of_no_chain (reg : Tasks) : ∀ (fuel : Nat) (t : Task),
    (¬ ∃ l : List Task, ChainL reg t l ∧ l.length = fuel + 1) →
    toShellCommandFuel reg (fuel + 1) t ≠ .error .outOfFuel := by
  intro fuel
  induction fuel with
  | zero =>
    intro t hnc h
    obtain ⟨s, hs, hfs⟩ := buildCmdWith_oof (render_succ_oof h)
    obtain ⟨u, htr, hf, _⟩ := stepFrags_oof hfs
    exact hnc ⟨[u], ChainL.cons ⟨s, hs, htr, hf⟩ (ChainL.nil u), rfl⟩
  | succ n ih =>
    intro t hnc h
    obtain ⟨s, hs, hfs⟩ := buildCmdWith_oof (render_succ_oof h)
    obtain ⟨u, htr, hf, hru⟩ := stepFrags_oof hfs
    refine ih u ?_ hru
    rintro ⟨l, hl, hlen⟩
    exact hnc ⟨u :: l, ChainL.cons ⟨s, hs, htr, hf⟩ hl, by simp [hlen]⟩

lemma refStep_target_mem {reg : Tasks} {t u : Task} (h : RefStep reg t u) :
    u ∈ reg.all := by
  obtain ⟨s, _, _, hf⟩ := h
  exact List.mem_of_find?_eq_some hf

lemma chainL_mem_transGen {reg : Tasks} : ∀ {a : Task} {l : List Task},
    ChainL reg a l → ∀ b ∈ l, Relation.TransGen (RefStep reg) a b := by
  intro a l h
  induction h with
  | nil => intro b hb; exact absurd hb (List.not_mem_nil b)
  | cons hstep _ ih =>
    intro b hb
    rcases List.mem_cons.mp hb with rfl | hb'
    · exact Relation.TransGen.single hstep
    · exact Relation.TransGen.head hstep (ih b hb')

lemma chainL_suffix (reg : Tasks) : ∀ (l₁ : List Task) (a u : Task) (l₂ : List Task),
    ChainL reg a (l₁ ++ u :: l₂) → ChainL reg u l₂ := by
  intro l₁
  induction l₁ with
  | nil =>
    intro a u l₂ h
    cases h with
    | cons _ h2 => exact h2
  | cons w rest ih =>
    intro a u l₂ h
    cases h with
    | cons _ h2 => exact ih w u l₂ h2

lemma chainL_mem_reg {reg : Tasks} : ∀ {a : Task} {l : List Task},
    ChainL reg a l → ∀ b ∈ l, b ∈ reg.all := by
  intro a l h
  induction h with
  | nil => intro b hb; exact absurd hb (List.not_mem_nil b)
  | cons hstep _ ih =>
    intro b hb
    rcases List.mem_cons.mp hb with rfl | hb'
    · exact refStep_target_mem hstep
    · exact ih b hb'

lemma not_nodup_split {α : Type} : ∀ (l : List α), ¬ l.Nodup →
    ∃ l₁ u l₂, l = l₁ ++ u :: l₂ ∧ u ∈ l₂ := by
  intro l
  induction l with
  | nil => intro h; exact absurd List.nodup_nil h
  | cons x rest ih =>
    intro h
    rw [List.nodup_cons] at h
    by_cases hx : x ∈ rest
    · exact ⟨[], x, rest, rfl, hx⟩
    · have hnr : ¬ rest.Nodup := fun hn => h ⟨hx, hn⟩
      obtain ⟨l₁, u, l₂, heq, hu⟩ := ih hnr
      exact ⟨x :: l₁, u, l₂, by rw [heq]; rfl, hu⟩

/-- In an acyclic registry no reference chain can have more tasks than the
registry stores: a longer chain would repeat a task and close a cycle. -/
lemma acyclic_no_long_chain {reg : Tasks} (hac : Acyclic reg) (t : Task) :
    ¬ ∃ l : List Task, ChainL reg t l ∧ l.length = reg.all.length + 1 := by
  rintro ⟨l, hl, hlen⟩
  by_cases hnd : l.Nodup
  · have hsub : l ⊆ reg.all := fun {b} hb => chainL_mem_reg hl b hb
    have := List.Subperm.length_le (List.subperm_of_subset hnd hsub)
    omega
  · obtain ⟨l₁, u, l₂, heq, hu⟩ := not_nodup_split l hnd
    have hchain2 : ChainL reg u l₂ := chainL_suffix reg l₁ t u l₂ (heq ▸ hl)
    exact hac u (chainL_mem_transGen hchain2 u hu)

lemma stepFrags_mono {reg : Tasks} {fuel : Nat}
    (IH : ∀ t, toShellCommandFuel reg fuel t ≠ .error .outOfFuel →
      toShellCommandFuel reg (fuel + 1) t = toShellCommandFuel reg fuel t)
    (s : TaskStep)
    (h : stepFrags reg (fun sub => toShellCommandFuel reg fuel sub) s ≠ .error .outOfFuel) :
    stepFrags reg (fun sub => toShellCommandFuel reg (fuel + 1) sub) s =
      stepFrags reg (fun sub => toShellCommandFuel reg fuel sub) s := by
  unfold stepFrags
  cases htr : truthy s.execTask with
  | false => simp
  | true =>
    simp only [if_true]
    cases hf : reg.tryFind (s.execTask.getD "") with
    | none => simp
    | some sub =>
      simp only []
      cases hr : toShellCommandFuel reg fuel sub with
      | error e =>
        have hne : e ≠ .outOfFuel := by
          intro hee
          subst hee
          exact h (by simp [stepFrags, htr, hf, hr])
        rw [IH sub (by rw [hr]; intro heq; injection heq with h2; exact hne h2), hr]
      | ok r =>
        rw [IH sub (by rw [hr]; simp), hr]

lemma buildCmd_mono {reg : Tasks} {fuel : Nat}
    (IH : ∀ t, toShellCommandFuel reg fuel t ≠ .error .outOfFuel →
      toShellCommandFuel reg (fuel + 1) t = toShellCommandFuel reg fuel t) :
    ∀ l : List TaskStep,
      buildCmdWith (stepFrags reg (fun sub => toShellCommandFuel reg fuel sub)) l ≠
        .error .outOfFuel →
      buildCmdWith (stepFrags reg (fun sub => toShellCommandFuel reg (fuel + 1) sub)) l =
        buildCmdWith (stepFrags reg (fun sub => toShellCommandFuel reg fuel sub)) l := by
  intro l
  induction l with
  | nil => intro _; rfl
  | cons s rest ih =>
    intro h
    rw [buildCmdWith_cons, buildCmdWith_cons]
    cases hs : stepFrags reg (fun sub => toShellCommandFuel reg fuel sub) s with
    | error e =>
      have he : e ≠ .outOfFuel := by
        intro hee
        subst hee
        exact h (by rw [buildCmdWith_cons, hs])
      rw [stepFrags_mono IH s
        (by rw [hs]; intro heq; injection heq with h2; exact he h2), hs]
    | ok frags =>
      rw [stepFrags_mono IH s (by rw [hs]; simp), hs]
      cases hr : buildCmdWith (stepFrags reg (fun sub => toShellCommandFuel reg fuel sub)) rest with
      | error e =>
        have he : e ≠ .outOfFuel := by
          intro hee
          subst hee
          exact h (by rw [buildCmdWith_cons, hs, hr])
        rw [ih (by rw [hr]; intro heq; injection heq with h2; exact he h2), hr]
      | ok more =>
        rw [ih (by rw [hr]; simp), hr]

/-- Once rendering does not run out of fuel, one more unit of fuel does not
change the result. -/
lemma render_mono {reg : Tasks} : ∀ (fuel : Nat) (t : Task),
    toShellCommandFuel reg fuel t ≠ .error .outOfFuel →
    toShellCommandFuel reg (fuel + 1) t = toShellCommandFuel reg fuel t := by
  intro fuel
  induction fuel with
  | zero => intro t h; exact absurd rfl h
  | succ n ih =>
    intro t h
    rw [toShellCommandFuel_succ reg (n + 1) t, toShellCommandFuel_succ reg n t]
    have hb : buildCmd reg n t._steps ≠ .error .outOfFuel := by
      intro hbe
      exact h (toShellCommandFuel_succ_error hbe)
    rw [show buildCmd reg (n + 1) t._steps = buildCmd reg n t._steps from
      buildCmd_mono ih t._steps hb]

/-- Fuel irrelevance beyond a sufficient amount. -/
lemma render_stable {reg : Tasks} {n : Nat} {t : Task}
    (h : toShellCommandFuel reg n t ≠ .error .outOfFuel) :
    ∀ m, n ≤ m → toShellCommandFuel reg m t = toShellCommandFuel reg n t := by
  intro m hm
  induction m, hm using Nat.le_induction with
  | base => rfl
  | succ m _ ih =>
    rw [render_mono m t (by rw [ih]; exact h), ih]

lemma buildCmd_no_unres {f : TaskStep → Except RenderError (List String)} :
    ∀ l : List TaskStep, (∀ s ∈ l, ∀ e, f s = .error e → e = .outOfFuel) →
      ∀ e, buildCmdWith f l = .error e → e = .outOfFuel := by
  intro l
  induction l with
  | nil => intro _ e h; exact absurd h (by simp [buildCmdWith])
  | cons s rest ih =>
    intro hstep e h
    rw [buildCmdWith_cons] at h
    cases hs : f s with
    | error e' =>
      rw [hs] at h
      injection h with h2
      cases h2
      exact hstep s (List.mem_cons_self s rest) _ hs
    | ok frags =>
      rw [hs] at h
      cases hr : buildCmdWith f rest with
      | error e' =>
        rw [hr] at h
        injection h with h2
        cases h2
        exact ih (fun s' hm => hstep s' (List.mem_cons_of_mem s hm)) _ hr
      | ok more =>
        rw [hr] at h
        exact absurd h (by simp)

lemma step_no_unres {reg : Tasks} {n : Nat} {t : Task}
    (hres : AllRefsResolve reg t)
    (ihn : ∀ u ∈ reg.all, ∀ e, toShellCommandFuel reg n u = .error e → e = .outOfFuel) :
    ∀ s ∈ t._steps, ∀ e,
      stepFrags reg (fun sub => toShellCommandFuel reg n sub) s = .error e →
        e = .outOfFuel := by
  intro s hsmem e hse
  cases htr : truthy s.execTask with
  | false => exact absurd hse (by simp [stepFrags, htr])
  | true =>
    cases hf : reg.tryFind (s.execTask.getD "") with
    | none =>
      have hsome := hres s hsmem htr
      rw [hf] at hsome
      exact absurd hsome (by simp)
    | some u =>
      cases hr : toShellCommandFuel reg n u with
      | error e3 =>
        have heq : stepFrags reg (fun sub => toShellCommandFuel reg n sub) s = .error e3 := by
          simp [stepFrags, htr, hf, hr]
        rw [heq] at hse
        injection hse with h2
        exact h2 ▸ ihn u (List.mem_of_find?_eq_some hf) e3 hr
      | ok r =>
        exact absurd hse (by simp [stepFrags, htr, hf, hr])

/-- In a registry whose stored tasks all have resolving references, the
only render error a task with resolving references can produce is fuel
exhaustion. -/
lemma render_no_unres {reg : Tasks} (hgood : GoodReg reg) :
    ∀ (fuel : Nat) (t : Task), AllRefsResolve reg t →
      ∀ e, toShellCommandFuel reg fuel t = .error e → e = .outOfFuel := by
  intro fuel
  induction fuel with
  | zero =>
    intro t _ e h
    have h' : (Except.error RenderError.outOfFuel : Except RenderError String) = .error e := h
    injection h' with h2
    exact h2.symm
  | succ n ih =>
    intro t hres e h
    rw [toShellCommandFuel_succ] at h
    cases hb : buildCmd reg n t._steps with
    | ok cmd =>
      rw [hb] at h
      exact absurd h (by simp)
    | error e' =>
      rw [hb] at h
      injection h with h2
      cases h2
      exact buildCmd_no_unres t._steps
        (step_no_unres hres (fun u hu e2 h2 => ih u (hgood u hu) e2 h2)) _ hb

/-- A task on a reference cycle, in a registry whose references all
resolve, exhausts any amount of fuel: the render recursion never
terminates. -/
lemma cyclic_render_oof {reg : Tasks} (hgood : GoodReg reg) :
    ∀ (fuel : Nat) (t : Task), AllRefsResolve reg t →
      Relation.TransGen (RefStep reg) t t →
      toShellCommandFuel reg fuel t = .error .outOfFuel := by
  intro fuel
  induction fuel with
  | zero => intro t _ _; rfl
  | succ n ih =>
    intro t hres hcyc
    obtain ⟨u, hedge, hrt⟩ := Relation.TransGen.head'_iff.mp hcyc
    have hcycu : Relation.TransGen (RefStep reg) u u :=
      Relation.TransGen.trans_right hrt (Relation.TransGen.single hedge)
    have humem : u ∈ reg.all := refStep_target_mem hedge
    have hru : toShellCommandFuel reg n u = .error .outOfFuel :=
      ih u (hgood u humem) hcycu
    obtain ⟨s, hs, htr, hf⟩ := hedge
    apply toShellCommandFuel_succ_error
    obtain ⟨pre, post, hsplit⟩ := List.append_of_mem hs
    rw [hsplit]
    show buildCmdWith _ (pre ++ s :: post) = _
    rw [buildCmdWith_append]
    cases hpre : buildCmdWith (stepFrags reg (fun sub => toShellCommandFuel reg n sub)) pre with
    | error e =>
      have he : e = .outOfFuel := by
        refine buildCmd_no_unres pre ?_ e hpre
        intro s' hm e2 h2
        refine step_no_unres hres
          (fun u' hu' e3 h3 => render_no_unres hgood n u' (hgood u' hu') e3 h3) s' ?_ e2 h2
        rw [hsplit]
        exact List.mem_append_left _ hm
      rw [he]
    | ok a =>
      rw [buildCmdWith_cons]
      have hfs : stepFrags reg (fun sub => toShellCommandFuel reg n sub) s =
          .error .outOfFuel := by
        simp [stepFrags, htr, hf, hru]
      rw [hfs]

/-- C7 (amended): if no task directly or transitively references itself,
`toShellCommand` terminates — fuel one more than the registry size never
exhausts, and any larger fuel gives the same result.  Conversely a task
that directly or transitively references itself, in a registry all of whose
subtask references resolve, exhausts every amount of fuel: the recursion
never terminates.  (The original claim's converse needs the resolvability
proviso: an unresolvable reference ordered before the cyclic one aborts the
render with the resolution error, which is termination.) -/
theorem C7_termination (reg : Tasks) (t : Task) :
    (Acyclic reg →
      toShellCommandFuel reg (reg.all.length + 1) t ≠ .error .outOfFuel
      ∧ ∀ m, reg.all.length + 1 ≤ m →
          toShellCommandFuel reg m t = toShellCommandFuel reg (reg.all.length + 1) t)
  ∧ ((Relation.TransGen (RefStep reg) t t ∧ AllRefsResolve reg t ∧ GoodReg reg) →
      ∀ fuel, toShellCommandFuel reg fuel t = .error .outOfFuel) := by
  constructor
  · intro hac
    have h1 := no_oof_of_no_chain reg reg.all.length t (acyclic_no_long_chain hac t)
    exact ⟨h1, fun m hm => render_stable h1 m hm⟩
  · rintro ⟨hcyc, hres, hgood⟩ fuel
    exact cyclic_render_oof hgood fuel t hres hcyc

lemma no_refStep_from_sampleTask : ∀ z, ¬ RefStep sampleReg sampleTask z := by
  rintro z ⟨s, hs, htr, _⟩
  have hone : s = { name := none, exec := some "npm run compile", execTask := none, env := [] } := by
    simpa [sampleTask] using hs
  rw [hone] at htr
  exact absurd htr (by decide)

lemma acyclic_sampleReg : Acyclic sampleReg := by
  intro u hcyc
  obtain ⟨b, _, hbu⟩ := Relation.TransGen.tail'_iff.mp hcyc
  have humem : u ∈ sampleReg.all := refStep_target_mem hbu
  have hu : u = sampleTask := by simpa [sampleReg] using humem
  subst hu
  obtain ⟨c, hc, _⟩ := Relation.TransGen.head'_iff.mp hcyc
  exact no_refStep_from_sampleTask c hc

lemma loopTask_cycle : Relation.TransGen (RefStep loopReg) loopTask loopTask :=
  Relation.TransGen.single
    ⟨{ name := none, exec := none, execTask := some "loop", env := [] },
      by simp [loopTask], by decide, by decide⟩

lemma loopTask_resolves : AllRefsResolve loopReg loopTask := by decide

lemma loopReg_good : GoodReg loopReg := by decide

theorem C7_termination_witness :
    (toShellCommandFuel sampleReg 2 sampleTask ≠ .error .outOfFuel
      ∧ toShellCommandFuel sampleReg 7 sampleTask = toShellCommandFuel sampleReg 2 sampleTask)
  ∧ toShellCommandFuel loopReg 4 loopTask = .error .outOfFuel := by
  constructor
  · have h := (C7_termination sampleReg sampleTask).1 acyclic_sampleReg
    exact ⟨h.1, h.2 7 (by decide)⟩
  · exact (C7_termination loopReg loopTask).2 ⟨loopTask_cycle, loopTask_resolves, loopReg_good⟩ 4

/-- C7 counterexample: `brokenLoopTask` directly references itself, yet its
render terminates — the earlier unresolvable reference `nope` aborts the
render with the resolution error rather than recursing forever, refuting
the claim that every (transitively) self-referencing task makes the render
recursion non-terminating. -/
theorem C7_selfref_terminates_cex :
    RefStep brokenLoopReg brokenLoopTask brokenLoopTask
  ∧ toShellCommandFuel brokenLoopReg 5 brokenLoopTask = .error (.unresolvedSubtask "nope")
  ∧ toShellCommandFuel brokenLoopReg 5 brokenLoopTask ≠ .error .outOfFuel :=
  ⟨⟨{ name := none, exec := none, execTask := some "A", env := [] },
      by simp [brokenLoopTask], by decide, by decide⟩,
    by decide, by decide⟩

end Projen
